import Mathlib

/-!
Verification of the attribute inverted-index layer of the tempo trace storage
engine: the RowNumber coordinate primitive, the row-number codec, the index
iterator, the string-equality pruning predicate, and the CLI helpers for
index generation and block conversion.  Definitions are shallow embeddings of
the Go source; machine integers are modelled as `Int`/`Nat` (the operations
verified here never overflow the int32 slots for the inputs considered).
-/

namespace Tempo

/-- A RowNumber is an 8-slot array of int32, modelled as `Fin 8 → Int`.
Slot values are read/written through ordinary function application and
`Function.update`. -/
abbrev RowNumber := Fin 8 → Int

/-- `math.MaxInt32`. -/
def maxI32 : Int := 2147483647

/-- `MaxDefinitionLevel = 7`. -/
def MaxDefinitionLevel : Nat := 7

/-- `EmptyRowNumber()`: all slots `-1`. -/
def EmptyRowNumber : RowNumber := fun _ => -1

/-- `MaxRowNumber()`: the Go composite literal `RowNumber{math.MaxInt32}`,
whose unspecified elements take the int32 zero value `0`. -/
def MaxRowNumber : RowNumber := fun i => if i.val = 0 then maxI32 else 0

/-- Write slot `i` of a row number (no-op when `i ≥ 8`; the Go code never
indexes out of bounds on the paths embedded here). -/
def setSlot (t : RowNumber) (i : Nat) (v : Int) : RowNumber :=
  if h : i < 8 then Function.update t ⟨i, h⟩ v else t

/-- Read slot `i` (junk `0` when `i ≥ 8`, unreachable for the callers here). -/
def getSlot (t : RowNumber) (i : Nat) : Int :=
  if h : i < 8 then t ⟨i, h⟩ else 0

/-- The loop of `CompareRowNumbers`: compare slots `i`, `i+1`, … while
`i <= upToDefinitionLevel`, bounded by the 8-slot array (`fuel` is the number
of slots still available; it starts at 8 and never runs out before the
`i < 8` bound stops the loop). -/
def cmpUpTo (d : Nat) (a b : RowNumber) : Nat → Nat → Int
  | 0, _ => 0
  | fuel + 1, i =>
    if h : i ≤ d ∧ i < 8 then
      if a ⟨i, h.2⟩ < b ⟨i, h.2⟩ then -1
      else if b ⟨i, h.2⟩ < a ⟨i, h.2⟩ then 1
      else cmpUpTo d a b fuel (i + 1)
    else 0

/-- `CompareRowNumbers(upToDefinitionLevel, a, b)`: lexicographic comparison
of slots `0..=upToDefinitionLevel`. -/
def CompareRowNumbers (d : Nat) (a b : RowNumber) : Int :=
  cmpUpTo d a b 8 0

/-- Assign `v` to slots `lo..=hi` in order (the two `for` loops of
`nextSlow`). -/
def assignRange (t : RowNumber) (lo hi : Nat) (v : Int) : RowNumber :=
  (List.range' lo (hi + 1 - lo)).foldl (fun acc i => setSlot acc i v) t

/-- `nextSlow(repetitionLevel, definitionLevel)`: increment slot `rep`, zero
slots `rep+1..=def`, set slots `def+1..=7` to `-1`. -/
def nextSlow (t : RowNumber) (rep df : Nat) : RowNumber :=
  let t1 := setSlot t rep (getSlot t rep + 1)
  let t2 := assignRange t1 (rep + 1) df 0
  assignRange t2 (df + 1) 7 (-1)

/-- One `case` body of the unrolled `rowNumberNext`: assignments are listed
as `(slot, value)` pairs and applied in order. -/
def applyAssigns (t : RowNumber) (l : List (Nat × Int)) : RowNumber :=
  l.foldl (fun acc p => setSlot acc p.1 p.2) t

/-- The assignment list of the `switch rep { switch def { ... } }` matrix in
the unrolled `rowNumberNext` (file `row_number` non-amd64 build).  The
`default` branches panic in Go; they are unreachable for `rep, def ∈ [0,7]`
and modelled as no further assignments. -/
def unrolledCase (rep df : Nat) : List (Nat × Int) :=
  match rep, df with
  | 0, 0 => [(1, -1), (2, -1), (3, -1), (4, -1), (5, -1), (6, -1), (7, -1)]
  | 0, 1 => [(1, 0), (2, -1), (3, -1), (4, -1), (5, -1), (6, -1), (7, -1)]
  | 0, 2 => [(1, 0), (2, 0), (3, -1), (4, -1), (5, -1), (6, -1), (7, -1)]
  | 0, 3 => [(1, 0), (2, 0), (3, 0), (4, -1), (5, -1), (6, -1), (7, -1)]
  | 0, 4 => [(1, 0), (2, 0), (3, 0), (4, 0), (5, -1), (6, -1), (7, -1)]
  | 0, 5 => [(1, 0), (2, 0), (3, 0), (4, 0), (5, 0), (6, -1), (7, -1)]
  | 0, 6 => [(1, 0), (2, 0), (3, 0), (4, 0), (5, 0), (6, 0), (7, -1)]
  | 0, 7 => [(1, 0), (2, 0), (3, 0), (4, 0), (5, 0), (6, 0), (7, 0)]
  | 1, 0 => [(1, -1), (2, -1), (3, -1), (4, -1), (5, -1), (6, -1), (7, -1)]
  | 1, 1 => [(2, -1), (3, -1), (4, -1), (5, -1), (6, -1), (7, -1)]
  | 1, 2 => [(2, 0), (3, -1), (4, -1), (5, -1), (6, -1), (7, -1)]
  | 1, 3 => [(2, 0), (3, 0), (4, -1), (5, -1), (6, -1), (7, -1)]
  | 1, 4 => [(2, 0), (3, 0), (4, 0), (5, -1), (6, -1), (7, -1)]
  | 1, 5 => [(2, 0), (3, 0), (4, 0), (5, 0), (6, -1), (7, -1)]
  | 1, 6 => [(2, 0), (3, 0), (4, 0), (5, 0), (6, 0), (7, -1)]
  | 1, 7 => [(2, 0), (3, 0), (4, 0), (5, 0), (6, 0), (7, 0)]
  | 2, 0 => [(1, -1), (2, -1), (3, -1), (4, -1), (5, -1), (6, -1), (7, -1)]
  | 2, 1 => [(2, -1), (3, -1), (4, -1), (5, -1), (6, -1), (7, -1)]
  | 2, 2 => [(3, -1), (4, -1), (5, -1), (6, -1), (7, -1)]
  | 2, 3 => [(3, 0), (4, -1), (5, -1), (6, -1), (7, -1)]
  | 2, 4 => [(3, 0), (4, 0), (5, -1), (6, -1), (7, -1)]
  | 2, 5 => [(3, 0), (4, 0), (5, 0), (6, -1), (7, -1)]
  | 2, 6 => [(3, 0), (4, 0), (5, 0), (6, 0), (7, -1)]
  | 2, 7 => [(3, 0), (4, 0), (5, 0), (6, 0), (7, 0)]
  | 3, 0 => [(1, -1), (2, -1), (3, -1), (4, -1), (5, -1), (6, -1), (7, -1)]
  | 3, 1 => [(2, -1), (3, -1), (4, -1), (5, -1), (6, -1), (7, -1)]
  | 3, 2 => [(3, -1), (4, -1), (5, -1), (6, -1), (7, -1)]
  | 3, 3 => [(4, -1), (5, -1), (6, -1), (7, -1)]
  | 3, 4 => [(4, 0), (5, -1), (6, -1), (7, -1)]
  | 3, 5 => [(4, 0), (5, 0), (6, -1), (7, -1)]
  | 3, 6 => [(4, 0), (5, 0), (6, 0), (7, -1)]
  | 3, 7 => [(4, 0), (5, 0), (6, 0), (7, 0)]
  | 4, 0 => [(1, -1), (2, -1), (3, -1), (4, -1), (5, -1), (6, -1), (7, -1)]
  | 4, 1 => [(2, -1), (3, -1), (4, -1), (5, -1), (6, -1), (7, -1)]
  | 4, 2 => [(3, -1), (4, -1), (5, -1), (6, -1), (7, -1)]
  | 4, 3 => [(4, -1), (5, -1), (6, -1), (7, -1)]
  | 4, 4 => [(5, -1), (6, -1), (7, -1)]
  | 4, 5 => [(5, 0), (6, -1), (7, -1)]
  | 4, 6 => [(5, 0), (6, 0), (7, -1)]
  | 4, 7 => [(5, 0), (6, 0), (7, 0)]
  | 5, 0 => [(1, -1), (2, -1), (3, -1), (4, -1), (5, -1), (6, -1), (7, -1)]
  | 5, 1 => [(2, -1), (3, -1), (4, -1), (5, -1), (6, -1), (7, -1)]
  | 5, 2 => [(3, -1), (4, -1), (5, -1), (6, -1), (7, -1)]
  | 5, 3 => [(4, -1), (5, -1), (6, -1), (7, -1)]
  | 5, 4 => [(5, -1), (6, -1), (7, -1)]
  | 5, 5 => [(6, -1), (7, -1)]
  | 5, 6 => [(6, 0), (7, -1)]
  | 5, 7 => [(6, 0), (7, 0)]
  | 6, 0 => [(1, -1), (2, -1), (3, -1), (4, -1), (5, -1), (6, -1), (7, -1)]
  | 6, 1 => [(2, -1), (3, -1), (4, -1), (5, -1), (6, -1), (7, -1)]
  | 6, 2 => [(3, -1), (4, -1), (5, -1), (6, -1), (7, -1)]
  | 6, 3 => [(4, -1), (5, -1), (6, -1), (7, -1)]
  | 6, 4 => [(5, -1), (6, -1), (7, -1)]
  | 6, 5 => [(6, -1), (7, -1)]
  | 6, 6 => [(7, -1)]
  | 6, 7 => [(7, 0)]
  | 7, 0 => [(1, -1), (2, -1), (3, -1), (4, -1), (5, -1), (6, -1), (7, -1)]
  | 7, 1 => [(2, -1), (3, -1), (4, -1), (5, -1), (6, -1), (7, -1)]
  | 7, 2 => [(3, -1), (4, -1), (5, -1), (6, -1), (7, -1)]
  | 7, 3 => [(4, -1), (5, -1), (6, -1), (7, -1)]
  | 7, 4 => [(5, -1), (6, -1), (7, -1)]
  | 7, 5 => [(6, -1), (7, -1)]
  | 7, 6 => [(7, -1)]
  | 7, 7 => []
  | _, _ => []

/-- `rowNumberNext(row, rep, def)` (unrolled implementation): increment slot
`rep`, then apply the assignments of the 64-case `(rep, def)` matrix. -/
def rowNumberNext (t : RowNumber) (rep df : Nat) : RowNumber :=
  applyAssigns (setSlot t rep (getSlot t rep + 1)) (unrolledCase rep df)

/-- Apply a sequence of `(rep, def)` steps with a given step function. -/
def runSteps (step : RowNumber → Nat → Nat → RowNumber) (t : RowNumber)
    (ps : List (Nat × Nat)) : RowNumber :=
  ps.foldl (fun acc p => step acc p.1 p.2) t

/-- Single-step equivalence of the unrolled and the naive `next`. -/
theorem rowNumberNext_eq_nextSlow (t : RowNumber) (rep df : Nat)
    (hr : rep ≤ 7) (hd : df ≤ 7) : rowNumberNext t rep df = nextSlow t rep df := by
  interval_cases rep <;> interval_cases df <;> (funext i; fin_cases i <;> rfl)

/-- C1: for every starting RowNumber and every sequence of `(rep, def)` pairs
with both components in `[0..7]`, the unrolled `rowNumberNext` yields a
coordinate bit-identical to the naive two-loop `nextSlow` applied to the same
start with the same sequence. -/
theorem c1_rowNumberNext_refines_nextSlow (start : RowNumber)
    (ps : List (Nat × Nat)) (h : ∀ p ∈ ps, p.1 ≤ 7 ∧ p.2 ≤ 7) :
    runSteps rowNumberNext start ps = runSteps nextSlow start ps := by
  induction ps generalizing start with
  | nil => rfl
  | cons p rest ih =>
    have hp := h p (List.mem_cons_self p rest)
    simp only [runSteps, List.foldl_cons]
    rw [rowNumberNext_eq_nextSlow start p.1 p.2 hp.1 hp.2]
    exact ih (nextSlow start p.1 p.2) (fun q hq => h q (List.mem_cons_of_mem p hq))

/-- Witness for C1 at the Dremel-paper step sequence of the tests. -/
theorem c1_rowNumberNext_refines_nextSlow_witness :
    (∀ p ∈ [((0:Nat),(3:Nat)), (2,2), (1,1), (1,3), (0,1)], p.1 ≤ 7 ∧ p.2 ≤ 7) ∧
    runSteps rowNumberNext EmptyRowNumber [(0,3), (2,2), (1,1), (1,3), (0,1)] =
      runSteps nextSlow EmptyRowNumber [(0,3), (2,2), (1,1), (1,3), (0,1)] :=
  ⟨by decide, c1_rowNumberNext_refines_nextSlow EmptyRowNumber _ (by decide)⟩

/-- `(t RowNumber) Preceding()`, scanning slots from index `i` down to 0:
`-1` slots are skipped, `0` slots become `MaxInt32` and the scan continues,
and the first other slot is decremented, ending the scan. -/
def precedingAux : Nat → RowNumber → RowNumber
  | 0, t =>
    if t 0 = -1 then t
    else if t 0 = 0 then Function.update t 0 maxI32
    else Function.update t 0 (t 0 - 1)
  | i + 1, t =>
    if h : i + 1 < 8 then
      if t ⟨i + 1, h⟩ = -1 then precedingAux i t
      else if t ⟨i + 1, h⟩ = 0 then
        precedingAux i (Function.update t ⟨i + 1, h⟩ maxI32)
      else Function.update t ⟨i + 1, h⟩ (t ⟨i + 1, h⟩ - 1)
    else precedingAux i t

/-- `Preceding()` starts the downward scan at slot 7. -/
def Preceding (t : RowNumber) : RowNumber := precedingAux 7 t

/-- All slots are in the int32 range used for defined (`≥ 0`) or
undefined (`-1`) level ordinals. -/
def ValidRowNumber (r : RowNumber) : Prop :=
  ∀ i : Fin 8, -1 ≤ r i ∧ r i ≤ maxI32

instance : DecidablePred ValidRowNumber := fun _ =>
  inferInstanceAs (Decidable (∀ _, _ ∧ _))

lemma cmpUpTo_eq_zero_of (d : Nat) (a b : RowNumber) :
    ∀ fuel i, (∀ k : Fin 8, i ≤ k.val → k.val ≤ d → a k = b k) →
      cmpUpTo d a b fuel i = 0 := by
  intro fuel
  induction fuel with
  | zero => intro i _; rfl
  | succ n ih =>
    intro i hk
    unfold cmpUpTo
    split
    case isTrue h =>
      have heq : a ⟨i, h.2⟩ = b ⟨i, h.2⟩ := hk ⟨i, h.2⟩ (le_refl _) h.1
      rw [heq]
      simp only [lt_irrefl, if_false]
      exact ih (i + 1) (fun k hk1 hk2 => hk k (Nat.le_of_succ_le hk1) hk2)
    case isFalse h => rfl

lemma cmpUpTo_eq_neg_of (d : Nat) (a b : RowNumber) :
    ∀ fuel i (m : Fin 8), 8 ≤ fuel + i → i ≤ m.val → m.val ≤ d → a m < b m →
      (∀ k : Fin 8, i ≤ k.val → k.val < m.val → a k = b k) →
      cmpUpTo d a b fuel i = -1 := by
  intro fuel
  induction fuel with
  | zero =>
    intro i m hfuel him _ _ _
    exact absurd (lt_of_le_of_lt him m.isLt) (by omega)
  | succ n ih =>
    intro i m hfuel him hmd hab hpre
    have hi8 : i < 8 := lt_of_le_of_lt him m.isLt
    have hid : i ≤ d := le_trans him hmd
    unfold cmpUpTo
    rw [dif_pos ⟨hid, hi8⟩]
    by_cases hcase : i = m.val
    · have : (⟨i, hi8⟩ : Fin 8) = m := Fin.ext hcase
      rw [this, if_pos hab]
    · have hlt : i < m.val := lt_of_le_of_ne him hcase
      have heq : a ⟨i, hi8⟩ = b ⟨i, hi8⟩ := hpre ⟨i, hi8⟩ (le_refl _) hlt
      rw [heq]
      simp only [lt_irrefl, if_false]
      exact ih (i + 1) m (by omega) hlt hmd hab
        (fun k hk1 hk2 => hpre k (Nat.le_of_succ_le hk1) hk2)

lemma cmpUpTo_antisymm (d : Nat) (a b : RowNumber) :
    ∀ fuel i, cmpUpTo d b a fuel i = -cmpUpTo d a b fuel i := by
  intro fuel
  induction fuel with
  | zero => intro i; rfl
  | succ n ih =>
    intro i
    unfold cmpUpTo
    split
    case isTrue h =>
      rcases lt_trichotomy (a ⟨i, h.2⟩) (b ⟨i, h.2⟩) with hlt | heq | hgt
      · simp [hlt, not_lt_of_lt hlt]
      · rw [heq]
        simp only [lt_irrefl, if_false]
        exact ih (i + 1)
      · simp [hgt, not_lt_of_lt hgt]
    case isFalse h => rfl

/-- A negative comparison at definition level 7 yields a first differing
slot. -/
lemma compare7_lt_exists {a b : RowNumber} (h : CompareRowNumbers 7 a b < 0) :
    ∃ m : Fin 8, a m < b m ∧ ∀ k : Fin 8, k < m → a k = b k := by
  classical
  by_cases hdiff : ∃ n : Fin 8, a n ≠ b n
  case neg =>
    push_neg at hdiff
    have h0 : cmpUpTo 7 a b 8 0 = 0 :=
      cmpUpTo_eq_zero_of 7 a b 8 0 (fun k _ _ => hdiff k)
    unfold CompareRowNumbers at h
    omega
  case pos =>
    have hPex : ∃ n, ∃ hn : n < 8, a ⟨n, hn⟩ ≠ b ⟨n, hn⟩ := by
      obtain ⟨n0, hn0⟩ := hdiff
      exact ⟨n0.val, n0.isLt, by simpa using hn0⟩
    obtain ⟨hm8, hmne⟩ := Nat.find_spec hPex
    have hpre : ∀ k : Fin 8, k.val < Nat.find hPex → a k = b k := by
      intro k hk
      by_contra hne
      exact Nat.find_min hPex hk ⟨k.isLt, by simpa using hne⟩
    rcases lt_trichotomy (a ⟨Nat.find hPex, hm8⟩) (b ⟨Nat.find hPex, hm8⟩) with
      hlt | heq | hgt
    · exact ⟨⟨Nat.find hPex, hm8⟩, hlt, fun k hk => hpre k hk⟩
    · exact absurd heq hmne
    · have hneg : cmpUpTo 7 b a 8 0 = -1 :=
        cmpUpTo_eq_neg_of 7 b a 8 0 ⟨Nat.find hPex, hm8⟩ (by omega)
          (Nat.zero_le _) (Nat.le_of_lt_succ hm8) hgt
          (fun k _ hk => (hpre k hk).symm)
      have hanti := cmpUpTo_antisymm 7 a b 8 0
      unfold CompareRowNumbers at h
      omega

/-- Characterization of the downward scan of `Preceding`: if `j` is the
deepest slot at or above `i` holding a positive value and every deeper slot
up to `i` holds `-1` or `0`, the scan decrements slot `j`, replaces the `0`
slots below it by `MaxInt32` and leaves everything else unchanged. -/
lemma precedingAux_zero_eq (t : RowNumber) :
    precedingAux 0 t =
      if t 0 = -1 then t
      else if t 0 = 0 then Function.update t 0 maxI32
      else Function.update t 0 (t 0 - 1) := rfl

lemma precedingAux_succ_eq (n : Nat) (hn8 : n + 1 < 8) (t : RowNumber) :
    precedingAux (n + 1) t =
      if t ⟨n + 1, hn8⟩ = -1 then precedingAux n t
      else if t ⟨n + 1, hn8⟩ = 0 then
        precedingAux n (Function.update t ⟨n + 1, hn8⟩ maxI32)
      else Function.update t ⟨n + 1, hn8⟩ (t ⟨n + 1, hn8⟩ - 1) := by
  show (if h : n + 1 < 8 then
      if t ⟨n + 1, h⟩ = -1 then precedingAux n t
      else if t ⟨n + 1, h⟩ = 0 then
        precedingAux n (Function.update t ⟨n + 1, h⟩ maxI32)
      else Function.update t ⟨n + 1, h⟩ (t ⟨n + 1, h⟩ - 1)
    else precedingAux n t) = _
  rw [dif_pos hn8]

lemma precedingAux_spec : ∀ i : Nat, i < 8 → ∀ (t : RowNumber) (j : Fin 8),
    j.val ≤ i → 0 < t j →
    (∀ k : Fin 8, j.val < k.val → k.val ≤ i → t k = -1 ∨ t k = 0) →
    precedingAux i t = fun k : Fin 8 =>
      if j.val < k.val ∧ k.val ≤ i ∧ t k = 0 then maxI32
      else if k = j then t j - 1 else t k := by
  intro i
  induction i with
  | zero =>
    intro _ t j hj hpos _
    have hj0 : j = 0 := by
      apply Fin.ext; rw [Fin.val_zero]; omega
    rw [hj0] at hpos ⊢
    rw [precedingAux_zero_eq, if_neg (by omega), if_neg (by omega)]
    funext k
    rw [Function.update_apply]
    by_cases hk : k = 0
    · rw [if_pos hk,
        if_neg (by rintro ⟨h1, h2, _⟩; rw [Fin.val_zero] at h1; omega)]
    · rw [if_neg hk,
        if_neg (by rintro ⟨h1, h2, _⟩; rw [Fin.val_zero] at h1; omega)]
  | succ n ih =>
    intro hn8 t j hj hpos hrest
    rw [precedingAux_succ_eq n hn8 t]
    by_cases hjtop : j.val = n + 1
    · have hjf : (⟨n + 1, hn8⟩ : Fin 8) = j := Fin.ext hjtop.symm
      rw [hjf, if_neg (show ¬t j = -1 by omega), if_neg (show ¬t j = 0 by omega)]
      funext k
      show Function.update t j (t j - 1) k =
        if j.val < k.val ∧ k.val ≤ n + 1 ∧ t k = 0 then maxI32
        else if k = j then t j - 1 else t k
      rw [Function.update_apply,
        if_neg (show ¬(j.val < k.val ∧ k.val ≤ n + 1 ∧ t k = 0) by
          rintro ⟨h1, h2, _⟩; omega)]
    · have hjlt : j.val < n + 1 := lt_of_le_of_ne hj hjtop
      have hjne : j ≠ ⟨n + 1, hn8⟩ := by
        intro he; rw [he] at hjlt; simp at hjlt
      rcases hrest ⟨n + 1, hn8⟩ hjlt (le_refl _) with hm1 | h0
      · rw [if_pos hm1,
          ih (by omega) t j (by omega) hpos
            (fun k hk1 hk2 => hrest k hk1 (by omega))]
        funext k
        show (if j.val < k.val ∧ k.val ≤ n ∧ t k = 0 then maxI32
            else if k = j then t j - 1 else t k) =
          if j.val < k.val ∧ k.val ≤ n + 1 ∧ t k = 0 then maxI32
          else if k = j then t j - 1 else t k
        by_cases hk : k.val = n + 1
        · have hkf : k = ⟨n + 1, hn8⟩ := Fin.ext hk
          rw [if_neg (show ¬(j.val < k.val ∧ k.val ≤ n ∧ t k = 0) by
              rintro ⟨_, h2, _⟩; omega),
            if_neg (show ¬(j.val < k.val ∧ k.val ≤ n + 1 ∧ t k = 0) by
              rintro ⟨_, _, h3⟩; rw [hkf] at h3; rw [h3] at hm1; omega)]
        · have hcond : (j.val < k.val ∧ k.val ≤ n ∧ t k = 0) ↔
              (j.val < k.val ∧ k.val ≤ n + 1 ∧ t k = 0) := by
            constructor
            · rintro ⟨h1, h2, h3⟩; exact ⟨h1, by omega, h3⟩
            · rintro ⟨h1, h2, h3⟩; exact ⟨h1, by omega, h3⟩
          rw [if_congr hcond rfl rfl]
      · rw [if_neg (show ¬t ⟨n + 1, hn8⟩ = -1 by omega), if_pos h0,
          ih (by omega) (Function.update t ⟨n + 1, hn8⟩ maxI32) j (by omega)
            (by rw [Function.update_noteq hjne]; exact hpos)
            (fun k hk1 hk2 => by
              rw [Function.update_noteq (show k ≠ ⟨n + 1, hn8⟩ by
                intro he; rw [he] at hk2; simp at hk2)]
              exact hrest k hk1 (by omega))]
        funext k
        show (if j.val < k.val ∧ k.val ≤ n ∧
              Function.update t ⟨n + 1, hn8⟩ maxI32 k = 0 then maxI32
            else if k = j then Function.update t ⟨n + 1, hn8⟩ maxI32 j - 1
            else Function.update t ⟨n + 1, hn8⟩ maxI32 k) =
          if j.val < k.val ∧ k.val ≤ n + 1 ∧ t k = 0 then maxI32
          else if k = j then t j - 1 else t k
        rw [Function.update_noteq hjne]
        by_cases hk : k.val = n + 1
        · have hkf : k = ⟨n + 1, hn8⟩ := Fin.ext hk
          rw [if_neg (show ¬(j.val < k.val ∧ k.val ≤ n ∧
                Function.update t ⟨n + 1, hn8⟩ maxI32 k = 0) by
              rintro ⟨_, h2, _⟩; omega),
            if_neg (show ¬k = j by intro he; rw [← he] at hjtop; exact hjtop hk),
            if_pos (show j.val < k.val ∧ k.val ≤ n + 1 ∧ t k = 0 from
              ⟨by omega, by omega, by rw [hkf]; exact h0⟩),
            hkf, Function.update_same]
        · have hne : k ≠ ⟨n + 1, hn8⟩ := by
            intro he; rw [he] at hk; simp at hk
          rw [Function.update_noteq hne]
          have hcond : (j.val < k.val ∧ k.val ≤ n ∧ t k = 0) ↔
              (j.val < k.val ∧ k.val ≤ n + 1 ∧ t k = 0) := by
            constructor
            · rintro ⟨h1, h2, h3⟩; exact ⟨h1, by omega, h3⟩
            · rintro ⟨h1, h2, h3⟩; exact ⟨h1, by omega, h3⟩
          rw [if_congr hcond rfl rfl]

/-- The deepest slot of `r` holding a positive value (0 if none). -/
def deepestPos (r : RowNumber) : Nat :=
  Nat.findGreatest (fun n => 0 < getSlot r n) 7

/-- `Preceding` of a row number with positive slot 0: the deepest positive
slot is decremented, the zero slots below it become `MaxInt32`, and all other
slots (including `-1` slots) are unchanged. -/
lemma preceding_spec (r : RowNumber) (hr0 : 0 < r 0)
    (hlb : ∀ i : Fin 8, -1 ≤ r i) :
    ∃ j : Fin 8, 0 < r j ∧
      (∀ k : Fin 8, j.val < k.val → r k = -1 ∨ r k = 0) ∧
      Preceding r = fun k : Fin 8 =>
        if j.val < k.val ∧ r k = 0 then maxI32
        else if k = j then r j - 1 else r k := by
  classical
  have h0 : 0 < getSlot r 0 := by
    have : getSlot r 0 = r 0 := by unfold getSlot; rw [dif_pos (by omega)]; rfl
    omega
  have hspec := Nat.findGreatest_spec (P := fun n => 0 < getSlot r n)
    (Nat.zero_le 7) h0
  have hle : deepestPos r ≤ 7 := Nat.findGreatest_le 7
  have hj8 : deepestPos r < 8 := by omega
  have hjpos : 0 < r ⟨deepestPos r, hj8⟩ := by
    have : getSlot r (deepestPos r) = r ⟨deepestPos r, hj8⟩ := by
      unfold getSlot; rw [dif_pos hj8]
    unfold deepestPos at *
    omega
  have hrest : ∀ k : Fin 8, deepestPos r < k.val → r k = -1 ∨ r k = 0 := by
    intro k hk
    have hnk : ¬0 < getSlot r k.val :=
      Nat.findGreatest_is_greatest hk (Nat.le_of_lt_succ k.isLt)
    have : getSlot r k.val = r k := by
      unfold getSlot; rw [dif_pos k.isLt]
    have hub := hlb k
    omega
  refine ⟨⟨deepestPos r, hj8⟩, hjpos, hrest, ?_⟩
  have := precedingAux_spec 7 (by omega) r ⟨deepestPos r, hj8⟩
    (Nat.le_of_lt_succ hj8) hjpos (fun k hk1 _ => hrest k hk1)
  unfold Preceding
  rw [this]
  funext k
  have hk7 : k.val ≤ 7 := Nat.le_of_lt_succ k.isLt
  by_cases hc : deepestPos r < k.val ∧ r k = 0
  · rw [if_pos ⟨hc.1, hk7, hc.2⟩, if_pos hc]
  · rw [if_neg (by rintro ⟨h1, _, h3⟩; exact hc ⟨h1, h3⟩), if_neg hc]

/-- C6 (amended): for `r` with positive slot 0 and int32-ranged slots,
`Preceding r` is strictly less than `r` under `compare` at definition level
7, and no row number `x` with int32-ranged slots and the same pattern of
`-1` (undefined) slots as `r` lies strictly between `Preceding r` and `r`. -/
theorem c6_preceding_is_immediate_predecessor (r : RowNumber)
    (hv : ValidRowNumber r) (hr0 : 0 < r 0) :
    CompareRowNumbers 7 (Preceding r) r < 0 ∧
    ∀ x : RowNumber, ValidRowNumber x → (∀ i : Fin 8, x i = -1 ↔ r i = -1) →
      ¬(CompareRowNumbers 7 (Preceding r) x < 0 ∧
        CompareRowNumbers 7 x r < 0) := by
  obtain ⟨j, hjpos, hrest, hchar⟩ := preceding_spec r hr0 (fun i => (hv i).1)
  have hpj : Preceding r j = r j - 1 := by
    simp [hchar]
  have hpk : ∀ k : Fin 8, k.val < j.val → Preceding r k = r k := by
    intro k hk
    simp only [hchar]
    rw [if_neg (show ¬(j.val < k.val ∧ r k = 0) by rintro ⟨h1, _⟩; omega),
      if_neg (show ¬k = j by intro he; rw [he] at hk; omega)]
  have hp0 : ∀ k : Fin 8, j.val < k.val → r k = 0 → Preceding r k = maxI32 := by
    intro k hk h0
    simp only [hchar]
    rw [if_pos (show j.val < k.val ∧ r k = 0 from ⟨hk, h0⟩)]
  have hpm1 : ∀ k : Fin 8, j.val < k.val → r k = -1 → Preceding r k = r k := by
    intro k hk h1
    simp only [hchar]
    rw [if_neg (show ¬(j.val < k.val ∧ r k = 0) by rintro ⟨_, h2⟩; omega),
      if_neg (show ¬k = j by intro he; rw [he] at hk; omega)]
  constructor
  · have hneg : cmpUpTo 7 (Preceding r) r 8 0 = -1 :=
      cmpUpTo_eq_neg_of 7 (Preceding r) r 8 0 j (by omega) (Nat.zero_le _)
        (Nat.le_of_lt_succ j.isLt) (by rw [hpj]; omega)
        (fun k _ hk => hpk k hk)
    unfold CompareRowNumbers
    omega
  · rintro x hxv hmask ⟨h1, h2⟩
    obtain ⟨m2, hm2lt, hm2pre⟩ := compare7_lt_exists h1
    obtain ⟨m1, hm1lt, hm1pre⟩ := compare7_lt_exists h2
    rcases lt_trichotomy m2.val j.val with hA | hB | hC
    · have hpm2 : Preceding r m2 = r m2 := hpk m2 hA
      rcases lt_trichotomy m1.val m2.val with hd | hd | hd
      · have he1 : Preceding r m1 = x m1 := hm2pre m1 hd
        have he2 : Preceding r m1 = r m1 := hpk m1 (by omega)
        omega
      · have : m1 = m2 := Fin.ext hd
        rw [this] at hm1lt
        omega
      · have he1 : x m2 = r m2 := hm1pre m2 hd
        omega
    · have hm2j : m2 = j := Fin.ext hB
      rw [hm2j, hpj] at hm2lt
      rcases lt_trichotomy m1.val j.val with hd | hd | hd
      · have he1 : Preceding r m1 = x m1 := hm2pre m1 (by omega)
        have he2 : Preceding r m1 = r m1 := hpk m1 hd
        omega
      · have : m1 = j := Fin.ext hd
        rw [this] at hm1lt
        omega
      · have hxj : x j = r j := hm1pre j hd
        rcases hrest m1 hd with hcase | hcase
        · have hx1 : x m1 = -1 := (hmask m1).mpr hcase
          have := (hxv m1).1
          omega
        · have hx1 : x m1 = -1 := by
            have := (hxv m1).1
            omega
          have := (hmask m1).mp hx1
          omega
    · have hxj : x j = r j - 1 := by
        have := hm2pre j hC
        rw [hpj] at this
        omega
      rcases lt_trichotomy m1.val j.val with hd | hd | hd
      · have he1 : Preceding r m1 = x m1 := hm2pre m1 (by omega)
        have he2 : Preceding r m1 = r m1 := hpk m1 hd
        omega
      · rcases hrest m2 hC with hcase | hcase
        · have hx2 : x m2 = -1 := (hmask m2).mpr hcase
          have hpm2 : Preceding r m2 = r m2 := hpm1 m2 hC hcase
          omega
        · have hpm2 : Preceding r m2 = maxI32 := hp0 m2 hC hcase
          have := (hxv m2).2
          omega
      · have := hm1pre j hd
        omega

/-- The row number `[1, -1, -1, -1, -1, -1, -1, -1]` used to refute the
gap-freeness part of the `Preceding` claim. -/
def c6Row : RowNumber := fun i => if i.val = 0 then 1 else -1

/-- The row number `[0, 0, -1, …, -1]`: it lies strictly between
`Preceding c6Row = [0, -1, …, -1]` and `c6Row = [1, -1, …, -1]`. -/
def c6Between : RowNumber := fun i => if i.val ≤ 1 then 0 else -1

/-- C6 counterexample: for `r = [1, -1, …, -1]` (slot 0 greater than 0) the
representable row number `x = [0, 0, -1, …, -1]` satisfies
`Preceding r < x < r` under `compare` at definition level 7, refuting the
claim that no representable row number lies strictly between. -/
theorem c6_counterexample :
    0 < c6Row 0 ∧ ValidRowNumber c6Between ∧
    (∀ i j : Fin 8, i ≤ j → c6Between i = -1 → c6Between j = -1) ∧
    CompareRowNumbers 7 (Preceding c6Row) c6Between < 0 ∧
    CompareRowNumbers 7 c6Between c6Row < 0 := by decide

/-- Witness for C6 at `r = [1, -1, …, -1]`. -/
theorem c6_preceding_is_immediate_predecessor_witness :
    ValidRowNumber c6Row ∧ 0 < c6Row 0 ∧
    CompareRowNumbers 7 (Preceding c6Row) c6Row < 0 :=
  ⟨by decide, by decide,
    (c6_preceding_is_immediate_predecessor c6Row (by decide) (by decide)).1⟩

/-- The sentinel value the spec claims for `MAX`:
`[MAX_I32, -1, -1, -1, -1, -1, -1, -1]`. -/
def claimedMaxRowNumber : RowNumber := fun i => if i.val = 0 then maxI32 else -1

/-- C7 counterexample: `MaxRowNumber()` is the Go literal
`RowNumber{math.MaxInt32}`, whose slots 1–7 are zero-initialized, so the
sentinel is `[MAX_I32, 0, …, 0]` and not `[MAX_I32, -1, …, -1]`. -/
theorem c7_counterexample : ¬MaxRowNumber = claimedMaxRowNumber := fun h =>
  absurd (congrFun h 1) (by decide)

/-- C7 (amended): the sentinel `MAX` equals `[MAX_I32, 0, 0, 0, 0, 0, 0, 0]`
and compares strictly greater than every coordinate whose slot 0 is less
than `MAX_I32`. -/
theorem c7_max_sentinel (x : RowNumber) (hx : x 0 < maxI32) :
    MaxRowNumber = (fun i : Fin 8 => if i.val = 0 then maxI32 else 0) ∧
    CompareRowNumbers 7 x MaxRowNumber < 0 := by
  refine ⟨rfl, ?_⟩
  have hm : x 0 < MaxRowNumber 0 := by
    have h : MaxRowNumber 0 = maxI32 := by decide
    rw [h]; exact hx
  have hneg : cmpUpTo 7 x MaxRowNumber 8 0 = -1 :=
    cmpUpTo_eq_neg_of 7 x MaxRowNumber 8 0 0 (by omega)
      (Nat.zero_le _) (by decide) hm
      (fun k _ hk => by simp at hk)
  unfold CompareRowNumbers
  omega

/-- Witness for C7 at `x = EmptyRowNumber`. -/
theorem c7_max_sentinel_witness :
    EmptyRowNumber 0 < maxI32 ∧
    CompareRowNumbers 7 EmptyRowNumber MaxRowNumber < 0 :=
  ⟨by decide, (c7_max_sentinel EmptyRowNumber (by decide)).2⟩

/-- Go `bytes.Compare`: lexicographic comparison of byte slices, with the
shorter slice smaller when one is a prefix of the other. -/
def goBytesCompare : List Nat → List Nat → Int
  | [], [] => 0
  | [], _ :: _ => -1
  | _ :: _, [] => 1
  | a :: as, b :: bs =>
    if a < b then -1 else if b < a then 1 else goBytesCompare as bs

/-- `StringEqualPredicate.KeepColumnChunk`: keep when the chunk statistics
are absent (`Bounds()` not ok), otherwise keep iff
`Compare(value, min) >= 0 && Compare(value, max) <= 0`. -/
def keepColumnChunk (p : List Nat) (bounds : Option (List Nat × List Nat)) :
    Bool :=
  match bounds with
  | none => true
  | some (mn, mx) =>
    if 0 ≤ goBytesCompare p mn ∧ goBytesCompare p mx ≤ 0 then true else false

/-- `StringEqualPredicate.KeepPage`: same test against the page statistics. -/
def keepPage (p : List Nat) (bounds : Option (List Nat × List Nat)) : Bool :=
  match bounds with
  | none => true
  | some (mn, mx) =>
    if 0 ≤ goBytesCompare p mn ∧ goBytesCompare p mx ≤ 0 then true else false

/-- `StringEqualPredicate.KeepValue`: `bytes.Equal(val, value)`. -/
def keepValue (p v : List Nat) : Bool := v == p

lemma goBytesCompare_antisymm : ∀ a b : List Nat,
    goBytesCompare b a = -goBytesCompare a b := by
  intro a
  induction a with
  | nil => intro b; cases b <;> rfl
  | cons x as ih =>
    intro b
    cases b with
    | nil => rfl
    | cons y bs =>
      show (if y < x then -1 else if x < y then 1 else goBytesCompare bs as) =
        -(if x < y then -1 else if y < x then 1 else goBytesCompare as bs)
      rcases lt_trichotomy x y with hlt | heq | hgt
      · simp [hlt, show ¬y < x by omega]
      · subst heq
        simp [lt_irrefl, ih bs]
      · simp [hgt, show ¬x < y by omega]

/-- C4 counterexample: a chunk (or page) whose `(min, max)` statistics are
absent is kept by the predicate, while the claim requires it to be
discarded. -/
theorem c4_counterexample :
    keepColumnChunk [] none = true ∧ keepPage [] none = true := by decide

/-- C4 (amended): for every probe `p`, a chunk/page with statistics present
is kept exactly when `min ≤ p ≤ max` in byte-lexicographic order, a
chunk/page with absent statistics is kept, and `keep_value v` holds exactly
when `v` is byte-equal to `p`. -/
theorem c4_string_equal_predicate (p mn mx v : List Nat) :
    (keepColumnChunk p (some (mn, mx)) = true ↔
      goBytesCompare mn p ≤ 0 ∧ goBytesCompare p mx ≤ 0) ∧
    (keepPage p (some (mn, mx)) = true ↔
      goBytesCompare mn p ≤ 0 ∧ goBytesCompare p mx ≤ 0) ∧
    keepColumnChunk p none = true ∧ keepPage p none = true ∧
    (keepValue p v = true ↔ v = p) := by
  have hiff : (0 ≤ goBytesCompare p mn ∧ goBytesCompare p mx ≤ 0) ↔
      (goBytesCompare mn p ≤ 0 ∧ goBytesCompare p mx ≤ 0) := by
    rw [goBytesCompare_antisymm p mn]
    omega
  refine ⟨?_, ?_, rfl, rfl, ?_⟩
  · show (if 0 ≤ goBytesCompare p mn ∧ goBytesCompare p mx ≤ 0 then true
        else false) = true ↔ _
    rw [← hiff]
    by_cases hc : 0 ≤ goBytesCompare p mn ∧ goBytesCompare p mx ≤ 0
    · rw [if_pos hc]; simp [hc]
    · rw [if_neg hc]; simp [hc]
  · show (if 0 ≤ goBytesCompare p mn ∧ goBytesCompare p mx ≤ 0 then true
        else false) = true ↔ _
    rw [← hiff]
    by_cases hc : 0 ≤ goBytesCompare p mn ∧ goBytesCompare p mx ≤ 0
    · rw [if_pos hc]; simp [hc]
    · rw [if_neg hc]; simp [hc]
  · show (v == p) = true ↔ v = p
    exact beq_iff_eq

/-- One string value group of `fileStats` (`valueInfo[string]`): the byte
strings of the value's elements. -/
structure valueInfo where
  Value : List (List Nat)

/-- One scope entry of `attributeInfo` (only the string values are consumed
by `estimateRowsPerRowGroup`). -/
structure attributeInfoScope where
  ValuesString : List valueInfo

/-- One attribute entry of `fileStats`. -/
structure attributeInfo where
  Scopes : List attributeInfoScope

/-- `fileStats`: the map of attribute keys is modelled as the list of its
entries.  All sizes are non-negative int64 values, modelled as `Nat`. -/
structure fileStats where
  Attributes : List attributeInfo

/-- `magicUncompressedPageSize = 4_500_000`. -/
def magicUncompressedPageSize : Nat := 4500000

/-- `minRowGroups = 3`. -/
def minRowGroups : Nat := 3

/-- The accumulation loop of `estimateRowsPerRowGroup`: for each string
value, nudge the running size by one when it is divisible by 100 000, then
add the value's byte length. -/
def estimatedUncompressedValueBytes (stats : fileStats) : Nat :=
  stats.Attributes.foldl (fun acc attr =>
    attr.Scopes.foldl (fun acc scope =>
      scope.ValuesString.foldl (fun acc vals =>
        vals.Value.foldl (fun acc val =>
          (if acc % 100000 = 0 then acc + 1 else acc) + val.length) acc)
        acc) acc) 0

/-- `estimateRowsPerRowGroup(stats)`. -/
def estimateRowsPerRowGroup (stats : fileStats) : Nat :=
  let uncompressedRowGroupSize := magicUncompressedPageSize * 5
  let rgCount :=
    max (estimatedUncompressedValueBytes stats / uncompressedRowGroupSize)
      minRowGroups
  stats.Attributes.length / rgCount + 1

/-- The row-group count as the spec describes it: estimated total
uncompressed value bytes divided by (5 × 4.5 MB), enforced to be at
least 3. -/
def specRowGroupCount (stats : fileStats) : Nat :=
  max (estimatedUncompressedValueBytes stats / (5 * 4500000)) 3

/-- Six attributes with no values: the estimate is 0, the row-group count is
the enforced minimum 3. -/
def c8Stats : fileStats := { Attributes := List.replicate 6 { Scopes := [] } }

/-- C8 counterexample: for six attributes the index writer computes 3 rows
per row group, while `ceil(total_rows / row_group_count) = ceil(6 / 3) = 2`:
the code computes `floor + 1`, not `ceil`. -/
theorem c8_counterexample :
    estimateRowsPerRowGroup c8Stats = 3 ∧ specRowGroupCount c8Stats = 3 ∧
    (c8Stats.Attributes.length + 3 - 1) / 3 = 2 := by decide

/-- C8 (amended): the row-group count is the estimated total uncompressed
value bytes divided by (5 × 4.5 MB) and at least 3, and the rows per row
group are `floor(total_rows / row_group_count) + 1` (not the ceiling). -/
theorem c8_rows_per_row_group (stats : fileStats) :
    3 ≤ specRowGroupCount stats ∧
    specRowGroupCount stats =
      max (estimatedUncompressedValueBytes stats /
        (magicUncompressedPageSize * 5)) minRowGroups ∧
    estimateRowsPerRowGroup stats =
      stats.Attributes.length / specRowGroupCount stats + 1 := by
  refine ⟨le_max_right _ _, ?_, ?_⟩
  · show max (estimatedUncompressedValueBytes stats / (5 * 4500000)) 3 = _
    rw [Nat.mul_comm 5 4500000]
    rfl
  · show _ = stats.Attributes.length /
      max (estimatedUncompressedValueBytes stats / (5 * 4500000)) 3 + 1
    rw [Nat.mul_comm 5 4500000]
    rfl

/-- Modelled from the spec: `backend.BlockMeta` (defined outside this
repository) is a JSON document of block metadata.  The fields other than
`Size_` and `FooterSize` are represented by `BlockID`, `TenantID`,
`TotalObjects`, `StartTime` and `EndTime`. -/
structure BlockMeta where
  BlockID : String
  TenantID : String
  TotalObjects : Int
  StartTime : Int
  EndTime : Int
  Size_ : Nat
  FooterSize : Nat
deriving DecidableEq

/-- The little-endian uint32 of four bytes. -/
def leUint32 (b0 b1 b2 b3 : Nat) : Nat :=
  b0 + 256 * b1 + 65536 * b2 + 16777216 * b3

/-- `convertParquet4to4.writeNewBlockMeta`: copy the input metadata, set
`Size_` to the size of the new data file, read 8 bytes at offset
`size − 8` (an error when the offset is negative, as in Go's `ReadAt`) and
set `FooterSize` to the little-endian uint32 of the first 4 bytes read. -/
def writeNewBlockMeta (meta : BlockMeta) (file : List Nat) :
    Except String BlockMeta :=
  let size := file.length
  let metaNew := { meta with Size_ := size }
  if size < 8 then Except.error "read error"
  else
    let buf := file.drop (size - 8)
    Except.ok { metaNew with
      FooterSize :=
        leUint32 (buf.getD 0 0) (buf.getD 1 0) (buf.getD 2 0) (buf.getD 3 0) }

lemma getD_drop_eq (l : List Nat) (m i : Nat) :
    (l.drop m).getD i 0 = l.getD (m + i) 0 := by
  simp [List.getD, List.getElem?_drop]

/-- C9: the new `meta.json` agrees with the input block metadata on every
field except `Size_` (the new data file's size in bytes) and `FooterSize`
(the little-endian uint32 read at offset `file_size − 8` of the new data
file). -/
theorem c9_write_new_block_meta (meta : BlockMeta) (file : List Nat)
    (h : 8 ≤ file.length) (m' : BlockMeta)
    (hres : writeNewBlockMeta meta file = Except.ok m') :
    m'.BlockID = meta.BlockID ∧ m'.TenantID = meta.TenantID ∧
    m'.TotalObjects = meta.TotalObjects ∧ m'.StartTime = meta.StartTime ∧
    m'.EndTime = meta.EndTime ∧ m'.Size_ = file.length ∧
    m'.FooterSize = leUint32
      (file.getD (file.length - 8) 0) (file.getD (file.length - 8 + 1) 0)
      (file.getD (file.length - 8 + 2) 0)
      (file.getD (file.length - 8 + 3) 0) := by
  unfold writeNewBlockMeta at hres
  rw [if_neg (by omega)] at hres
  have hm := Except.ok.inj hres
  subst hm
  refine ⟨rfl, rfl, rfl, rfl, rfl, rfl, ?_⟩
  show leUint32 ((file.drop (file.length - 8)).getD 0 0)
      ((file.drop (file.length - 8)).getD 1 0)
      ((file.drop (file.length - 8)).getD 2 0)
      ((file.drop (file.length - 8)).getD 3 0) = _
  simp [getD_drop_eq]

/-- A concrete 9-byte data file for the C9 witness. -/
def c9File : List Nat := [9, 1, 2, 3, 4, 5, 6, 7, 8]

/-- A concrete input block metadata for the C9 witness. -/
def c9Meta : BlockMeta :=
  { BlockID := "b", TenantID := "t", TotalObjects := 42, StartTime := 100,
    EndTime := 200, Size_ := 77, FooterSize := 5 }

/-- The metadata produced for `c9Meta`/`c9File`:
`FooterSize = leUint32 1 2 3 4 = 67305985`. -/
def c9Res : BlockMeta :=
  { BlockID := "b", TenantID := "t", TotalObjects := 42, StartTime := 100,
    EndTime := 200, Size_ := 9, FooterSize := 67305985 }

/-- Witness for C9 at a concrete metadata record and 9-byte file. -/
theorem c9_write_new_block_meta_witness :
    8 ≤ c9File.length ∧
    (c9Res.BlockID = c9Meta.BlockID ∧ c9Res.TenantID = c9Meta.TenantID ∧
    c9Res.TotalObjects = c9Meta.TotalObjects ∧
    c9Res.StartTime = c9Meta.StartTime ∧ c9Res.EndTime = c9Meta.EndTime ∧
    c9Res.Size_ = c9File.length ∧
    c9Res.FooterSize = leUint32
      (c9File.getD (c9File.length - 8) 0) (c9File.getD (c9File.length - 8 + 1) 0)
      (c9File.getD (c9File.length - 8 + 2) 0)
      (c9File.getD (c9File.length - 8 + 3) 0)) :=
  ⟨by decide, c9_write_new_block_meta c9Meta c9File (by decide) c9Res rfl⟩

/-! ## IndexIterator -/

/-- Column and entry names of the vparquet4 index iterator. -/
def indexColKey : String := "Key"

def indexColScop : String := "Scopes.list.element.Scope"

def indexColVal : String := "Scopes.list.element.ValuesString.list.element.Value"

def indexColStringValRowNumbersLvl1 : String :=
  "Scopes.list.element.ValuesString.list.element.RowNumbers.Lvl01"

def indexColStringValRowNumbersLvl2 : String :=
  "Scopes.list.element.ValuesString.list.element.RowNumbers.Lvl02"

def indexColStringValRowNumbersLvl3 : String :=
  "Scopes.list.element.ValuesString.list.element.RowNumbers.Lvl03"

def indexColStringValRowNumbersLvl4 : String :=
  "Scopes.list.element.ValuesString.list.element.RowNumbers.Lvl04"

def entryValueKey : String := "Value"

def entryScopeKey : String := "Scope"

def entryRowNumberKey : String := "RowNumber"

/-- A predicate handed to `makeIter` for an inner column iterator. -/
inductive PqPredicate where
  | stringEq (value : List Nat)
  | intEq (value : Int)
deriving DecidableEq

/-- One inner column iterator as configured through `makeIter(column,
predicate, selectAs)`. -/
structure MadeIter where
  column : String
  pred : Option PqPredicate
  selectAs : String
deriving DecidableEq

/-- `[]byte(s)`: the byte content of a probe string (code points stand in
for bytes; the identity of the bytes is irrelevant to the iterator
configuration claims). -/
def strBytes (s : String) : List Nat := s.data.map Char.toNat

/-- Modelled from the spec: `traceql.AttributeScopeFromString` (defined
outside this repository) maps a scope name to the scope enum
`{Resource, Span, Event, Link, Instrumentation}`, with an invalid marker
otherwise. -/
def AttributeScopeFromString (s : String) : Int :=
  if s = "resource" then 0
  else if s = "span" then 1
  else if s = "event" then 2
  else if s = "link" then 3
  else if s = "instrumentation" then 4
  else -1

/-- The iterator configuration built by `NewIndexIterator` (the mutable
position state starts at `EmptyRowNumber`). -/
structure IndexIteratorCfg where
  keyIter : MadeIter
  valIter : MadeIter
  scopeIter : MadeIter
  rowNumberIter : List MadeIter
  maxRowNums : Nat
  pos : RowNumber
  lastPos : RowNumber
  lastRow : RowNumber

/-- `NewIndexIterator(makeIter, maxRowNums, scope, key, value)`: the key and
value iterators carry `StringEqualPredicate`s, the scope iterator carries an
`IntEqualPredicate` on the probe's scope enum value, and two (for scope
"resource") or four row-number level iterators carry no predicate. -/
def NewIndexIterator (maxRowNums : Nat) (scope key value : String) :
    IndexIteratorCfg :=
  let scopeInt := AttributeScopeFromString scope
  let rnIter :=
    [⟨indexColStringValRowNumbersLvl1, none, entryRowNumberKey⟩,
     ⟨indexColStringValRowNumbersLvl2, none, entryRowNumberKey⟩] ++
    (if scope ≠ "resource" then
      [⟨indexColStringValRowNumbersLvl3, none, entryRowNumberKey⟩,
       ⟨indexColStringValRowNumbersLvl4, none, entryRowNumberKey⟩]
    else [])
  { keyIter := ⟨indexColKey, some (.stringEq (strBytes key)), indexColKey⟩,
    valIter := ⟨indexColVal, some (.stringEq (strBytes value)), entryValueKey⟩,
    scopeIter := ⟨indexColScop, some (.intEq scopeInt), entryScopeKey⟩,
    rowNumberIter := rnIter,
    maxRowNums := maxRowNums,
    pos := EmptyRowNumber,
    lastPos := EmptyRowNumber,
    lastRow := EmptyRowNumber }

/-- A parquet value carried by an iterator result entry. -/
inductive PqValue where
  | bytes (b : List Nat)
  | int (n : Int)
deriving DecidableEq

/-- `Value.ByteArray()`. -/
def PqValue.byteArray : PqValue → List Nat
  | .bytes b => b
  | .int _ => []

/-- `Value.Int64()` (and the integer carried by an int32 column). -/
def PqValue.toInt : PqValue → Int
  | .bytes _ => 0
  | .int n => n

/-- `Value.Int32()`: reduce to the int32 range. -/
def toInt32 (n : Int) : Int := (n + 2147483648) % 4294967296 - 2147483648

/-- An `IteratorResult`: its row number and its entries. -/
structure IterResult where
  rowNumber : RowNumber
  entries : List (String × PqValue)

/-- The `for _, e := range res.Entries { if e.Key == key { …; break } }`
pattern: the first entry with the given key. -/
def findEntry (r : IterResult) (key : String) : Option PqValue :=
  (r.entries.find? (fun e => e.1 == key)).map (fun e => e.2)

/-- The byte-array value of the first entry with the given key (empty when
absent, as the Go zero value of the assigned field). -/
def entryBytesD (r : IterResult) (key : String) : List Nat :=
  match findEntry r key with
  | some v => v.byteArray
  | none => []

/-- The integer value of the first entry with the given key (0 when
absent). -/
def entryIntD (r : IterResult) (key : String) : Int :=
  match findEntry r key with
  | some v => v.toInt
  | none => 0

/-- The `IndexResult` emitted by `IndexIterator.Next`. -/
structure IndexResult where
  Key : List Nat
  Value : List Nat
  Scope : Int
  RowNumbers : List RowNumber

/-- The responses of the inner iterators to the calls `IndexIterator.Next`
makes, in the order it makes them: one `keyIter.Next`, one
`scopeIter.SeekTo`, one `valIter.SeekTo`, one joint `SeekTo` on the
row-number iterators (indexed by iterator position) and a finite sequence of
joint `Next` rounds (the index file is finite; an exhausted iterator answers
`none`). -/
structure IterEnv where
  keyNext : Option IterResult
  scopeSeek : Option IterResult
  valSeek : Option IterResult
  rnSeek : Nat → Option IterResult
  rnNext : List (Nat → Option IterResult)

/-- The number of row-number iterators: two for scope "resource", four
otherwise (see `NewIndexIterator`). -/
def numRowNumberIters (scope : String) : Nat :=
  if scope = "resource" then 2 else 4

/-- One pass of `for i, ri := range ii.rowNumberIter { … }`: pull all `n`
iterators (`none` from any of them aborts the pass), fill slot `i` of a
fresh zero-valued row from the `RowNumber` entry of the `i`-th result, and
return the row together with the row number of the last result. -/
def processRound (n : Nat) (round : Nat → Option IterResult) :
    Option (RowNumber × RowNumber) :=
  match (List.range n).mapM round with
  | none => none
  | some rs =>
    let row : RowNumber := fun i =>
      if i.val < n then
        match rs.get? i.val with
        | some r => toInt32 (entryIntD r entryRowNumberKey)
        | none => 0
      else 0
    match rs.getLast? with
    | none => none
    | some last => some (row, last.rowNumber)

/-- The `for ii.maxRowNums == 0 || len(ires.RowNumbers) < ii.maxRowNums`
loop of `IndexIterator.Next`: keep pulling joint rounds while the cap allows
it, stop at an exhausted iterator or when the read position diverges from
the probe's value row at definition level 2. -/
def collectLoop (maxRowNums n : Nat) (pos : RowNumber) :
    List RowNumber → List (Nat → Option IterResult) → List RowNumber
  | acc, [] => acc
  | acc, round :: rest =>
    if maxRowNums = 0 ∨ acc.length < maxRowNums then
      match processRound n round with
      | none => acc
      | some (row, lastPos) =>
        if CompareRowNumbers 2 pos lastPos = 0 then
          collectLoop maxRowNums n pos (acc ++ [row]) rest
        else acc
    else acc

/-- `IndexIterator.Next()` for a probe with the given scope string and
row-number cap, with the inner iterators' responses given by `env` (I/O
errors, which are propagated unchanged, are not modelled). -/
def IndexIteratorNext (scope : String) (maxRowNums : Nat) (env : IterEnv) :
    Option IndexResult :=
  match env.keyNext with
  | none => none
  | some keyRes =>
    let key := entryBytesD keyRes indexColKey
    match env.scopeSeek with
    | none => none
    | some scopeRes =>
      let scopeV := entryIntD scopeRes entryScopeKey
      match env.valSeek with
      | none => none
      | some valRes =>
        let pos := valRes.rowNumber
        let value := entryBytesD valRes entryValueKey
        let n := numRowNumberIters scope
        match processRound n env.rnSeek with
        | none => some ⟨key, value, scopeV, []⟩
        | some (row, lastPos) =>
          if CompareRowNumbers 1 pos lastPos = 0 then
            some ⟨key, value, scopeV,
              collectLoop maxRowNums n pos [row] env.rnNext⟩
          else some ⟨key, value, scopeV, []⟩

lemma collectLoop_cons (maxRowNums n : Nat) (pos : RowNumber)
    (acc : List RowNumber) (round : Nat → Option IterResult)
    (rest : List (Nat → Option IterResult)) :
    collectLoop maxRowNums n pos acc (round :: rest) =
      if maxRowNums = 0 ∨ acc.length < maxRowNums then
        match processRound n round with
        | none => acc
        | some (row, lastPos) =>
          if CompareRowNumbers 2 pos lastPos = 0 then
            collectLoop maxRowNums n pos (acc ++ [row]) rest
          else acc
      else acc := rfl

lemma collectLoop_length_le (cap n : Nat) (pos : RowNumber) (hcap : 0 < cap) :
    ∀ (rounds : List (Nat → Option IterResult)) (acc : List RowNumber),
      acc.length ≤ cap →
      (collectLoop cap n pos acc rounds).length ≤ cap := by
  intro rounds
  induction rounds with
  | nil => intro acc hacc; exact hacc
  | cons round rest ih =>
    intro acc hacc
    rw [collectLoop_cons]
    by_cases hg : cap = 0 ∨ acc.length < cap
    · rw [if_pos hg]
      rcases hg with hg | hg
      · omega
      · cases hpr : processRound n round with
        | none => simpa using hacc
        | some rp =>
          simp only
          by_cases hcmp : CompareRowNumbers 2 pos rp.2 = 0
          · rw [if_pos hcmp]
            exact ih (acc ++ [rp.1]) (by simp; omega)
          · rw [if_neg hcmp]
            exact hacc
    · rw [if_neg hg]
      exact hacc

lemma collectLoop_all (P : RowNumber → Prop) (cap n : Nat) (pos : RowNumber)
    (hstep : ∀ (round : Nat → Option IterResult) row p,
      processRound n round = some (row, p) → P row) :
    ∀ (rounds : List (Nat → Option IterResult)) (acc : List RowNumber),
      (∀ r ∈ acc, P r) →
      ∀ r ∈ collectLoop cap n pos acc rounds, P r := by
  intro rounds
  induction rounds with
  | nil => intro acc hacc; exact hacc
  | cons round rest ih =>
    intro acc hacc
    rw [collectLoop_cons]
    by_cases hg : cap = 0 ∨ acc.length < cap
    · rw [if_pos hg]
      cases hpr : processRound n round with
      | none => exact hacc
      | some rp =>
        simp only
        by_cases hcmp : CompareRowNumbers 2 pos rp.2 = 0
        · rw [if_pos hcmp]
          refine ih (acc ++ [rp.1]) ?_
          intro r hr
          rcases List.mem_append.mp hr with hr | hr
          · exact hacc r hr
          · rw [List.mem_singleton.mp hr]
            exact hstep round rp.1 rp.2 (by rw [hpr])
        · rw [if_neg hcmp]
          exact hacc
    · rw [if_neg hg]
      exact hacc

lemma processRound_row_high_slots_zero (n : Nat)
    (round : Nat → Option IterResult) (row p : RowNumber)
    (h : processRound n round = some (row, p)) :
    ∀ i : Fin 8, n ≤ i.val → row i = 0 := by
  intro i hi
  unfold processRound at h
  cases hm : (List.range n).mapM round with
  | none => rw [hm] at h; exact absurd h (by simp)
  | some rs =>
    rw [hm] at h
    simp only at h
    cases hl : rs.getLast? with
    | none => rw [hl] at h; exact absurd h (by simp)
    | some last =>
      rw [hl] at h
      simp only [Option.some.injEq, Prod.mk.injEq] at h
      rw [← h.1]
      have hni : ¬(i.val < n) := by omega
      simp [hni]


/-- Inversion of a successful `IndexIterator.Next`: all three single
iterators answered, the emitted key/scope/value come from their entries, and
the row-number list is either empty (exhausted or misaligned row-number
iterators) or the collection loop's output seeded by the first joint
seek. -/
lemma indexIteratorNext_eq_some_elim (scope : String) (cap : Nat)
    (env : IterEnv) (res : IndexResult)
    (h : IndexIteratorNext scope cap env = some res) :
    ∃ keyRes scopeRes valRes,
      env.keyNext = some keyRes ∧ env.scopeSeek = some scopeRes ∧
      env.valSeek = some valRes ∧
      res.Key = entryBytesD keyRes indexColKey ∧
      res.Value = entryBytesD valRes entryValueKey ∧
      res.Scope = entryIntD scopeRes entryScopeKey ∧
      (res.RowNumbers = [] ∨
        ∃ row lastPos,
          processRound (numRowNumberIters scope) env.rnSeek =
            some (row, lastPos) ∧
          CompareRowNumbers 1 valRes.rowNumber lastPos = 0 ∧
          res.RowNumbers =
            collectLoop cap (numRowNumberIters scope) valRes.rowNumber
              [row] env.rnNext) := by
  obtain ⟨keyN, scopeS, valS, rnS, rnN⟩ := env
  cases keyN with
  | none => exact absurd h (by simp [IndexIteratorNext])
  | some keyRes =>
    cases scopeS with
    | none => exact absurd h (by simp [IndexIteratorNext])
    | some scopeRes =>
      cases valS with
      | none => exact absurd h (by simp [IndexIteratorNext])
      | some valRes =>
        refine ⟨keyRes, scopeRes, valRes, rfl, rfl, rfl, ?_⟩
        simp only [IndexIteratorNext] at h
        cases hpr : processRound (numRowNumberIters scope) rnS with
        | none =>
          rw [hpr] at h
          simp only [Option.some.injEq] at h
          rw [← h]
          exact ⟨rfl, rfl, rfl, Or.inl rfl⟩
        | some rp =>
          rw [hpr] at h
          simp only at h
          by_cases hc : CompareRowNumbers 1 valRes.rowNumber rp.2 = 0
          · rw [if_pos hc] at h
            simp only [Option.some.injEq] at h
            rw [← h]
            exact ⟨rfl, rfl, rfl, Or.inr ⟨rp.1, rp.2, by simp [hpr], hc, rfl⟩⟩
          · rw [if_neg hc] at h
            simp only [Option.some.injEq] at h
            rw [← h]
            exact ⟨rfl, rfl, rfl, Or.inl rfl⟩

/-- The probe position of the concrete iterator environments. -/
def envPos : RowNumber := fun _ => 0

/-- A row-number iterator response at `envPos` carrying value 0. -/
def envRnRes : IterResult :=
  { rowNumber := envPos, entries := [(entryRowNumberKey, PqValue.int 0)] }

/-- A joint round in which every row-number iterator answers `envRnRes`. -/
def envRound : Nat → Option IterResult := fun _ => some envRnRes

/-- An environment whose row-number iterators stay aligned with the probe
for `k` rounds after the first joint seek. -/
def mkAlignedEnv (k : Nat) : IterEnv :=
  { keyNext := some ⟨envPos, []⟩,
    scopeSeek := some ⟨envPos, []⟩,
    valSeek := some ⟨envPos, []⟩,
    rnSeek := envRound,
    rnNext := List.replicate k envRound }

lemma processRound_envRound :
    ∃ row, processRound 4 envRound = some (row, envPos) := ⟨_, rfl⟩

lemma collectLoop_aligned_len : ∀ (k : Nat) (acc : List RowNumber),
    (collectLoop 0 4 envPos acc (List.replicate k envRound)).length =
      acc.length + k := by
  intro k
  induction k with
  | zero => intro acc; rfl
  | succ m ih =>
    intro acc
    obtain ⟨row, hpr⟩ := processRound_envRound
    rw [List.replicate_succ, collectLoop_cons, if_pos (Or.inl rfl)]
    simp only [hpr]
    rw [if_pos (show CompareRowNumbers 2 envPos envPos = 0 by decide)]
    rw [ih (acc ++ [row])]
    simp only [List.length_append, List.length_singleton]
    omega

/-- C3: `IndexIterator.Next` returns at most `N` row coordinates when the
caller-supplied cap is `N > 0`, and with cap `0` the number of returned
coordinates is unlimited: for every `k` some environment makes it return
more than `k` coordinates. -/
theorem c3_next_row_number_cap :
    (∀ (scope : String) (cap : Nat) (env : IterEnv) (res : IndexResult),
      0 < cap → IndexIteratorNext scope cap env = some res →
      res.RowNumbers.length ≤ cap) ∧
    (∀ k : Nat, ∃ (env : IterEnv) (res : IndexResult),
      IndexIteratorNext "span" 0 env = some res ∧
      k < res.RowNumbers.length) := by
  constructor
  · intro scope cap env res hcap hres
    obtain ⟨_, _, valRes, _, _, _, _, _, _, hrows⟩ :=
      indexIteratorNext_eq_some_elim scope cap env res hres
    rcases hrows with hrows | ⟨row, lastPos, _, _, hrows⟩
    · rw [hrows]; exact Nat.zero_le cap
    · rw [hrows]
      exact collectLoop_length_le cap _ _ hcap env.rnNext [row]
        (by simpa using hcap)
  · intro k
    refine ⟨mkAlignedEnv k, _, rfl, ?_⟩
    show k < (collectLoop 0 4 envPos [_] (List.replicate k envRound)).length
    rw [collectLoop_aligned_len k]
    simp

/-- Witness for C3: with cap 1 and an aligned environment the result list
stays within the cap. -/
theorem c3_next_row_number_cap_witness :
    ∃ res, IndexIteratorNext "span" 1 (mkAlignedEnv 0) = some res ∧
      res.RowNumbers.length ≤ 1 :=
  ⟨_, rfl, c3_next_row_number_cap.1 "span" 1 (mkAlignedEnv 0) _
    Nat.one_pos rfl⟩

/-- C5 counterexample: the scope iterator built by `NewIndexIterator`
carries a predicate (an `IntEqualPredicate` on the probe's scope), not no
predicate. -/
theorem c5_counterexample :
    (NewIndexIterator 0 "resource" "cluster" "prod").scopeIter.pred ≠
      none := by decide

/-- C5 (amended): the scope iterator ranges over column `Scopes[].Scope` and
carries an int-equality predicate on the scope enum value of the probe; the
scope value emitted by `Next` is the one observed at the aligned row. -/
theorem c5_scope_iterator (cap : Nat) (scope key value : String) :
    (NewIndexIterator cap scope key value).scopeIter =
      ⟨indexColScop,
        some (PqPredicate.intEq (AttributeScopeFromString scope)),
        entryScopeKey⟩ ∧
    ∀ (env : IterEnv) (res : IndexResult),
      IndexIteratorNext scope cap env = some res →
      ∃ sr, env.scopeSeek = some sr ∧
        res.Scope = entryIntD sr entryScopeKey := by
  refine ⟨rfl, ?_⟩
  intro env res hres
  obtain ⟨_, scopeRes, _, _, hs, _, _, _, hscope, _⟩ :=
    indexIteratorNext_eq_some_elim scope cap env res hres
  exact ⟨scopeRes, hs, hscope⟩

/-- Witness for C5 at a concrete probe and environment. -/
theorem c5_scope_iterator_witness :
    (NewIndexIterator 0 "span" "k" "v").scopeIter =
      ⟨indexColScop,
        some (PqPredicate.intEq (AttributeScopeFromString "span")),
        entryScopeKey⟩ ∧
    ∃ res, IndexIteratorNext "span" 0 (mkAlignedEnv 1) = some res ∧
      ∃ sr, (mkAlignedEnv 1).scopeSeek = some sr ∧
        res.Scope = entryIntD sr entryScopeKey :=
  ⟨(c5_scope_iterator 0 "span" "k" "v").1,
    _, rfl, (c5_scope_iterator 0 "span" "k" "v").2 (mkAlignedEnv 1) _ rfl⟩

/-- C10: every coordinate emitted by `IndexIterator.Next` has slots 4
through 7 equal to 0 (not −1), and for a probe with scope "resource" slots 2
and 3 are 0 as well: only the first two or four slots are filled from the
row-number columns and the remaining slots keep the Go zero value. -/
theorem c10_next_unfilled_slots_zero (scope : String) (cap : Nat)
    (env : IterEnv) (res : IndexResult)
    (hres : IndexIteratorNext scope cap env = some res) :
    (∀ r ∈ res.RowNumbers, ∀ i : Fin 8, 4 ≤ i.val → r i = 0) ∧
    (scope = "resource" →
      ∀ r ∈ res.RowNumbers, ∀ i : Fin 8, 2 ≤ i.val → r i = 0) := by
  have hn4 : numRowNumberIters scope ≤ 4 := by
    unfold numRowNumberIters
    by_cases hsc : scope = "resource"
    · rw [if_pos hsc]; omega
    · rw [if_neg hsc]
  have key : ∀ r ∈ res.RowNumbers, ∀ i : Fin 8,
      numRowNumberIters scope ≤ i.val → r i = 0 := by
    obtain ⟨_, _, valRes, _, _, _, _, _, _, hrows⟩ :=
      indexIteratorNext_eq_some_elim scope cap env res hres
    rcases hrows with hrows | ⟨row, lastPos, hpr, _, hrows⟩
    · rw [hrows]; intro r hr; exact absurd hr (List.not_mem_nil r)
    · rw [hrows]
      exact collectLoop_all _ cap _ _
        (fun round row' p' hpr' => processRound_row_high_slots_zero _ _ _ _ hpr')
        env.rnNext [row]
        (by
          intro r hr
          rw [List.mem_singleton.mp hr]
          exact processRound_row_high_slots_zero _ _ _ _ hpr)
  constructor
  · intro r hr i hi
    exact key r hr i (by omega)
  · intro hsc r hr i hi
    refine key r hr i ?_
    unfold numRowNumberIters
    rw [if_pos hsc]
    omega

/-- Witness for C10 at a "resource" probe and an aligned environment. -/
theorem c10_next_unfilled_slots_zero_witness :
    ∃ res, IndexIteratorNext "resource" 0 (mkAlignedEnv 1) = some res ∧
      ((∀ r ∈ res.RowNumbers, ∀ i : Fin 8, 4 ≤ i.val → r i = 0) ∧
       ("resource" = "resource" →
        ∀ r ∈ res.RowNumbers, ∀ i : Fin 8, 2 ≤ i.val → r i = 0)) :=
  ⟨_, rfl,
    c10_next_unfilled_slots_zero "resource" 0 (mkAlignedEnv 1) _ rfl⟩

/-! ## RowNumbersEncode / RowNumbersDecode

The codec itself is not part of this repository snapshot (only its tests,
its callers and the spec describe it), so the definitions in this section
are modelled from the spec: per-slot deltas of slots 0..=3 against the
previous record (a zero predecessor for the first record), zig-zag varint
encoding of each delta, and trailing-zero truncation restored
deterministically on decode; decoded records have slots 4..=7 set to `-1`. -/

/-- Modelled from the spec: LEB128 unsigned varint bytes of `n`, low 7-bit
groups first, the high bit set on every byte but the last. -/
def uvarint (n : Nat) : List Nat :=
  if n < 128 then [n] else (n % 128 + 128) :: uvarint (n / 128)
termination_by n
decreasing_by exact Nat.div_lt_self (by omega) (by omega)

/-- The value of a complete varint byte list. -/
def uvarintVal : List Nat → Nat
  | [] => 0
  | b :: rest => b % 128 + 128 * uvarintVal rest

/-- Parse one varint from the head of a byte stream. -/
def readUvarint : List Nat → Option (Nat × List Nat)
  | [] => none
  | b :: rest =>
    if b < 128 then some (b, rest)
    else
      match readUvarint rest with
      | none => none
      | some (v, rem) => some (b - 128 + 128 * v, rem)

/-- Modelled from the spec: zig-zag encoding of a signed delta, mapping
small deltas of either sign to small codes. -/
def zigzag (z : Int) : Nat :=
  if 0 ≤ z then (2 * z).toNat else (2 * (-z) - 1).toNat

/-- Zig-zag decoding. -/
def unzigzag (n : Nat) : Int :=
  if n % 2 = 0 then ((n / 2 : Nat) : Int) else -(((n + 1) / 2 : Nat) : Int)

lemma unzigzag_zigzag (z : Int) : unzigzag (zigzag z) = z := by
  unfold zigzag unzigzag
  by_cases hz : 0 ≤ z
  · rw [if_pos hz]
    have h2 : (2 * z).toNat = 2 * z.toNat := by omega
    rw [if_pos (by omega)]
    omega
  · rw [if_neg hz]
    rw [if_neg (by omega)]
    omega

lemma uvarint_ne_nil (n : Nat) : uvarint n ≠ [] := by
  rw [uvarint]
  by_cases h : n < 128
  · rw [if_pos h]; exact List.cons_ne_nil n []
  · rw [if_neg h]; exact List.cons_ne_nil _ _

/-- Shape of a varint: continuation bytes (high bit set) followed by a final
byte with the high bit clear, which is nonzero whenever `n` is nonzero. -/
lemma uvarint_shape (n : Nat) : ∃ init last, uvarint n = init ++ [last] ∧
    last < 128 ∧ (∀ c ∈ init, 128 ≤ c) ∧ (n ≠ 0 → last ≠ 0) := by
  induction n using Nat.strong_induction_on with
  | _ n ih =>
    rw [uvarint]
    by_cases h : n < 128
    · rw [if_pos h]
      exact ⟨[], n, rfl, h, by intro c hc; exact absurd hc (List.not_mem_nil c),
        fun h0 => h0⟩
    · rw [if_neg h]
      obtain ⟨init, last, heq, hlt, hcont, hnz⟩ :=
        ih (n / 128) (Nat.div_lt_self (by omega) (by omega))
      refine ⟨(n % 128 + 128) :: init, last, by rw [heq]; rfl, hlt, ?_, ?_⟩
      · intro c hc
        rcases List.mem_cons.mp hc with hc | hc
        · omega
        · exact hcont c hc
      · intro _
        exact hnz (by omega)

lemma uvarintVal_uvarint (n : Nat) : uvarintVal (uvarint n) = n := by
  induction n using Nat.strong_induction_on with
  | _ n ih =>
    rw [uvarint]
    by_cases h : n < 128
    · rw [if_pos h]
      show n % 128 + 128 * uvarintVal [] = n
      unfold uvarintVal
      omega
    · rw [if_neg h]
      show (n % 128 + 128) % 128 + 128 * uvarintVal (uvarint (n / 128)) = n
      rw [ih (n / 128) (Nat.div_lt_self (by omega) (by omega))]
      omega

lemma readUvarint_append (n : Nat) (t : List Nat) :
    readUvarint (uvarint n ++ t) = some (n, t) := by
  induction n using Nat.strong_induction_on with
  | _ n ih =>
    rw [uvarint]
    by_cases h : n < 128
    · rw [if_pos h]
      show readUvarint (n :: t) = some (n, t)
      unfold readUvarint
      rw [if_pos h]
    · rw [if_neg h]
      show readUvarint ((n % 128 + 128) :: (uvarint (n / 128) ++ t)) =
        some (n, t)
      unfold readUvarint
      rw [if_neg (show ¬(n % 128 + 128 < 128) by omega),
        ih (n / 128) (Nat.div_lt_self (by omega) (by omega))]
      show some (n % 128 + 128 - 128 + 128 * (n / 128), t) = some (n, t)
      have harith : n % 128 + 128 - 128 + 128 * (n / 128) = n := by omega
      rw [harith]

/-- The buffer without its trailing zero bytes. -/
def dropTrailingZeros (b : List Nat) : List Nat :=
  (b.reverse.dropWhile (fun x => x == 0)).reverse

/-- Modelled from the spec: `truncateZeros` strips the trailing zero bytes
and appends the number of stripped zeros as a varint count suffix; an empty
buffer stays empty. -/
def truncateZeros (b : List Nat) : List Nat :=
  if b = [] then []
  else dropTrailingZeros b ++ uvarint (b.length - (dropTrailingZeros b).length)

/-- Modelled from the spec: `restoreZeros` reads the varint count suffix
back to front (its final byte has the high bit clear, its continuation
bytes have it set) and appends that many zero bytes to the remaining
prefix. -/
def restoreZeros (t : List Nat) : List Nat :=
  match t.reverse with
  | [] => []
  | b0 :: rest =>
    (rest.dropWhile (fun x => 128 ≤ x)).reverse ++
      List.replicate
        (uvarintVal ((b0 :: rest.takeWhile (fun x => 128 ≤ x)).reverse)) 0

lemma takeWhile_append_all {p : Nat → Bool} (l1 l2 : List Nat)
    (h : ∀ x ∈ l1, p x = true) :
    (l1 ++ l2).takeWhile p = l1 ++ l2.takeWhile p := by
  induction l1 with
  | nil => rfl
  | cons a l ih =>
    show List.takeWhile p (a :: (l ++ l2)) = a :: l ++ l2.takeWhile p
    rw [List.takeWhile_cons, if_pos (h a (List.mem_cons_self a l)),
      ih (fun x hx => h x (List.mem_cons_of_mem a hx))]
    rfl

lemma dropWhile_append_all {p : Nat → Bool} (l1 l2 : List Nat)
    (h : ∀ x ∈ l1, p x = true) :
    (l1 ++ l2).dropWhile p = l2.dropWhile p := by
  induction l1 with
  | nil => rfl
  | cons a l ih =>
    show List.dropWhile p (a :: (l ++ l2)) = l2.dropWhile p
    rw [List.dropWhile_cons, if_pos (h a (List.mem_cons_self a l)),
      ih (fun x hx => h x (List.mem_cons_of_mem a hx))]

/-- The stripped zeros reattached to the stripped buffer give back the
buffer. -/
lemma dropTrailingZeros_spec (b : List Nat) :
    dropTrailingZeros b ++
      List.replicate (b.length - (dropTrailingZeros b).length) 0 = b := by
  unfold dropTrailingZeros
  set p : Nat → Bool := fun x => x == 0
  set tw := b.reverse.takeWhile p
  set dw := b.reverse.dropWhile p
  have h1 : tw ++ dw = b.reverse := List.takeWhile_append_dropWhile p b.reverse
  have h2 : dw.reverse ++ tw.reverse = b := by
    have h := congrArg List.reverse h1
    rw [List.reverse_append, List.reverse_reverse] at h
    exact h
  have hz : ∀ x ∈ tw, x = 0 := by
    intro x hx
    have hb : p x = true := List.mem_takeWhile_imp hx
    have hb2 : (x == 0) = true := hb
    exact eq_of_beq hb2
  have h3 : tw.reverse = List.replicate tw.length 0 :=
    (congrArg List.reverse (List.eq_replicate_iff.mpr ⟨rfl, hz⟩)).trans
      (List.reverse_replicate _ _)
  have h4 : b.length - dw.reverse.length = tw.length := by
    have h := congrArg List.length h1
    simp only [List.length_append, List.length_reverse] at h
    simp only [List.length_reverse]
    omega
  rw [h4, ← h3]
  exact h2

/-- Restoring after truncating is the identity whenever the stripped buffer
is empty or ends in a byte with the high bit clear (every varint stream
does). -/
lemma restoreZeros_truncateZeros (b : List Nat)
    (hlast : dropTrailingZeros b = [] ∨
      ∃ l c, dropTrailingZeros b = l ++ [c] ∧ c < 128) :
    restoreZeros (truncateZeros b) = b := by
  unfold truncateZeros
  by_cases hb : b = []
  · rw [if_pos hb, hb]; rfl
  rw [if_neg hb]
  obtain ⟨init, last, huv, hlt, hcont, _⟩ :=
    uvarint_shape (b.length - (dropTrailingZeros b).length)
  rw [huv]
  have hrev : (dropTrailingZeros b ++ (init ++ [last])).reverse =
      last :: (init.reverse ++ (dropTrailingZeros b).reverse) := by
    simp [List.reverse_append]
  simp only [restoreZeros, hrev]
  have hinit : ∀ x ∈ init.reverse, decide (128 ≤ x) = true := by
    intro x hx
    rw [List.mem_reverse] at hx
    exact decide_eq_true (hcont x hx)
  have htake : List.takeWhile (fun x => decide (128 ≤ x))
      ((dropTrailingZeros b).reverse) = [] := by
    rcases hlast with h | ⟨l, c, hbc, hc⟩
    · rw [h]; rfl
    · rw [hbc, List.reverse_append]
      rw [show [c].reverse ++ l.reverse = c :: l.reverse by rfl]
      rw [List.takeWhile_cons, if_neg (by simpa using (by omega : ¬128 ≤ c))]
  have hdrop : List.dropWhile (fun x => decide (128 ≤ x))
      ((dropTrailingZeros b).reverse) = (dropTrailingZeros b).reverse := by
    rcases hlast with h | ⟨l, c, hbc, hc⟩
    · rw [h]; rfl
    · rw [hbc, List.reverse_append]
      rw [show [c].reverse ++ l.reverse = c :: l.reverse by rfl]
      rw [List.dropWhile_cons, if_neg (by simpa using (by omega : ¬128 ≤ c))]
  rw [takeWhile_append_all init.reverse (dropTrailingZeros b).reverse hinit,
    dropWhile_append_all init.reverse (dropTrailingZeros b).reverse hinit,
    htake, hdrop, List.append_nil, List.reverse_reverse]
  rw [show (last :: init.reverse).reverse = init ++ [last] by
    rw [List.reverse_cons, List.reverse_reverse]]
  rw [← huv, uvarintVal_uvarint]
  exact dropTrailingZeros_spec b

lemma dropTrailingZeros_append_zero (s : List Nat) :
    dropTrailingZeros (s ++ [0]) = dropTrailingZeros s := by
  unfold dropTrailingZeros
  rw [List.reverse_append]
  rfl

lemma dropTrailingZeros_of_last_ne_zero (s : List Nat) (c : Nat)
    (hc : c ≠ 0) : dropTrailingZeros (s ++ [c]) = s ++ [c] := by
  unfold dropTrailingZeros
  rw [List.reverse_append]
  rw [show [c].reverse ++ s.reverse = c :: s.reverse by rfl]
  rw [List.dropWhile_cons, if_neg (by simpa using hc)]
  rw [show (c :: s.reverse).reverse = s.reverse.reverse ++ [c] from
    List.reverse_cons c s.reverse]
  rw [List.reverse_reverse]

/-- A concatenation of varint encodings is empty after stripping trailing
zeros or ends in a byte with the high bit clear (the final byte of the last
nonzero varint). -/
lemma varintStream_shape (vs : List Nat) :
    dropTrailingZeros ((vs.map uvarint).flatten) = [] ∨
      ∃ l c, dropTrailingZeros ((vs.map uvarint).flatten) = l ++ [c] ∧
        c < 128 := by
  induction vs using List.reverseRecOn with
  | nil =>
    left
    rfl
  | append_singleton vs' v ih =>
    rw [List.map_append, List.flatten_append]
    rw [show (List.map uvarint [v]).flatten = uvarint v by simp]
    by_cases hv : v = 0
    · rw [hv, show uvarint 0 = [0] by rw [uvarint, if_pos (by omega)], dropTrailingZeros_append_zero]
      exact ih
    · obtain ⟨init, last, huv, hlt, _, hnz⟩ := uvarint_shape v
      rw [huv, show (vs'.map uvarint).flatten ++ (init ++ [last]) =
        ((vs'.map uvarint).flatten ++ init) ++ [last] by rw [List.append_assoc]]
      rw [dropTrailingZeros_of_last_ne_zero _ _ (hnz hv)]
      exact Or.inr ⟨(vs'.map uvarint).flatten ++ init, last, rfl, hlt⟩

/-- The zig-zagged slot deltas (slots 0..=3 only) of a record sequence, each
record against its predecessor. -/
def deltaVals : RowNumber → List RowNumber → List Nat
  | _, [] => []
  | prev, cur :: rest =>
    [zigzag (cur 0 - prev 0), zigzag (cur 1 - prev 1),
     zigzag (cur 2 - prev 2), zigzag (cur 3 - prev 3)] ++ deltaVals cur rest

/-- The all-zero predecessor of the first record. -/
def zeroRow : RowNumber := fun _ => 0

/-- Modelled from the spec: `RowNumbersEncode(buf, rowNumbers)` emits the
zig-zag varints of the per-slot deltas of slots 0..=3 (first record against
a zero predecessor) and truncates the trailing zero bytes. -/
def RowNumbersEncode (xs : List RowNumber) : List Nat :=
  truncateZeros ((deltaVals zeroRow xs).map uvarint).flatten

/-- Read one record: four varint deltas applied to slots 0..=3 of the
previous decoded record; slots 4..=7 of the decoded record are `-1`. -/
def readRecord (prev : RowNumber) (s : List Nat) :
    Option (RowNumber × List Nat) :=
  match readUvarint s with
  | none => none
  | some (v0, s0) =>
    match readUvarint s0 with
    | none => none
    | some (v1, s1) =>
      match readUvarint s1 with
      | none => none
      | some (v2, s2) =>
        match readUvarint s2 with
        | none => none
        | some (v3, s3) =>
          some (fun i : Fin 8 =>
            if i.val = 0 then prev 0 + unzigzag v0
            else if i.val = 1 then prev 1 + unzigzag v1
            else if i.val = 2 then prev 2 + unzigzag v2
            else if i.val = 3 then prev 3 + unzigzag v3
            else -1, s3)

/-- The decode loop: read records until the restored byte stream is
exhausted (the remaining byte count bounds the recursion). -/
def decodeGo : Nat → RowNumber → List Nat → List RowNumber →
    Option (List RowNumber)
  | 0, _, s, acc => if s = [] then some acc.reverse else none
  | fuel + 1, prev, s, acc =>
    if s = [] then some acc.reverse
    else
      match readRecord prev s with
      | none => none
      | some (cur, rem) => decodeGo fuel cur rem (cur :: acc)

/-- Modelled from the spec: `RowNumbersDecode(buf, encoded)` restores the
truncated zeros and decodes delta records against the previously decoded
record. -/
def RowNumbersDecode (encoded : List Nat) : Option (List RowNumber) :=
  decodeGo (restoreZeros encoded).length zeroRow (restoreZeros encoded) []

/-- The 4-slot projection: slots 0..=3 kept, slots 4..=7 set to `-1`. -/
def projectTo4 (r : RowNumber) : RowNumber :=
  fun i => if i.val ≤ 3 then r i else -1

lemma decodeGo_nil (fuel : Nat) (prev : RowNumber) (acc : List RowNumber) :
    decodeGo fuel prev [] acc = some acc.reverse := by
  cases fuel with
  | zero => rfl
  | succ n => rfl

lemma readRecord_encode (prevE prevD cur : RowNumber) (t : List Nat)
    (hpd : ∀ i : Fin 8, i.val ≤ 3 → prevD i = prevE i) :
    readRecord prevD (uvarint (zigzag (cur 0 - prevE 0)) ++
      (uvarint (zigzag (cur 1 - prevE 1)) ++
        (uvarint (zigzag (cur 2 - prevE 2)) ++
          (uvarint (zigzag (cur 3 - prevE 3)) ++ t)))) =
      some (projectTo4 cur, t) := by
  unfold readRecord
  rw [readUvarint_append]
  simp only
  rw [readUvarint_append]
  simp only
  rw [readUvarint_append]
  simp only
  rw [readUvarint_append]
  simp only [Option.some.injEq, Prod.mk.injEq]
  refine ⟨?_, trivial⟩
  funext i
  show (if i.val = 0 then prevD 0 + unzigzag (zigzag (cur 0 - prevE 0))
    else if i.val = 1 then prevD 1 + unzigzag (zigzag (cur 1 - prevE 1))
    else if i.val = 2 then prevD 2 + unzigzag (zigzag (cur 2 - prevE 2))
    else if i.val = 3 then prevD 3 + unzigzag (zigzag (cur 3 - prevE 3))
    else -1) = projectTo4 cur i
  unfold projectTo4
  rw [unzigzag_zigzag, unzigzag_zigzag, unzigzag_zigzag, unzigzag_zigzag]
  by_cases h0 : i.val = 0
  · have hi : i = 0 := Fin.ext h0
    rw [if_pos h0, if_pos (show i.val ≤ 3 by omega), ← hi]
    rw [hpd i (by omega)]
    omega
  rw [if_neg h0]
  by_cases h1 : i.val = 1
  · have hi : i = 1 := Fin.ext h1
    rw [if_pos h1, if_pos (show i.val ≤ 3 by omega), ← hi]
    rw [hpd i (by omega)]
    omega
  rw [if_neg h1]
  by_cases h2 : i.val = 2
  · have hi : i = 2 := Fin.ext h2
    rw [if_pos h2, if_pos (show i.val ≤ 3 by omega), ← hi]
    rw [hpd i (by omega)]
    omega
  rw [if_neg h2]
  by_cases h3 : i.val = 3
  · have hi : i = 3 := Fin.ext h3
    rw [if_pos h3, if_pos (show i.val ≤ 3 by omega), ← hi]
    rw [hpd i (by omega)]
    omega
  rw [if_neg h3, if_neg (show ¬i.val ≤ 3 by omega)]

lemma decodeGo_succ (fuel : Nat) (prev : RowNumber) (s : List Nat)
    (acc : List RowNumber) :
    decodeGo (fuel + 1) prev s acc =
      if s = [] then some acc.reverse
      else
        match readRecord prev s with
        | none => none
        | some (cur, rem) => decodeGo fuel cur rem (cur :: acc) := rfl

lemma decodeGo_encode : ∀ (xs : List RowNumber) (prevE prevD : RowNumber),
    (∀ i : Fin 8, i.val ≤ 3 → prevD i = prevE i) →
    ∀ (acc : List RowNumber) (fuel : Nat),
      ((deltaVals prevE xs).map uvarint).flatten.length ≤ fuel →
      decodeGo fuel prevD ((deltaVals prevE xs).map uvarint).flatten acc =
        some (acc.reverse ++ xs.map projectTo4) := by
  intro xs
  induction xs with
  | nil =>
    intro prevE prevD _ acc fuel _
    show decodeGo fuel prevD [] acc = _
    rw [decodeGo_nil]
    simp
  | cons cur rest ih =>
    intro prevE prevD hpd acc fuel hfuel
    have hstream : ((deltaVals prevE (cur :: rest)).map uvarint).flatten =
        uvarint (zigzag (cur 0 - prevE 0)) ++
          (uvarint (zigzag (cur 1 - prevE 1)) ++
            (uvarint (zigzag (cur 2 - prevE 2)) ++
              (uvarint (zigzag (cur 3 - prevE 3)) ++
                ((deltaVals cur rest).map uvarint).flatten))) := by
      show ((([zigzag (cur 0 - prevE 0), zigzag (cur 1 - prevE 1),
        zigzag (cur 2 - prevE 2), zigzag (cur 3 - prevE 3)] ++
        deltaVals cur rest)).map uvarint).flatten = _
      simp [List.append_assoc]
    rw [hstream] at hfuel ⊢
    have hne : uvarint (zigzag (cur 0 - prevE 0)) ++
        (uvarint (zigzag (cur 1 - prevE 1)) ++
          (uvarint (zigzag (cur 2 - prevE 2)) ++
            (uvarint (zigzag (cur 3 - prevE 3)) ++
              ((deltaVals cur rest).map uvarint).flatten))) ≠ [] := by
      intro h
      exact uvarint_ne_nil (zigzag (cur 0 - prevE 0))
        (List.append_eq_nil.mp h).1
    cases fuel with
    | zero =>
      exfalso
      have h0 : (uvarint (zigzag (cur 0 - prevE 0)) ++
          (uvarint (zigzag (cur 1 - prevE 1)) ++
            (uvarint (zigzag (cur 2 - prevE 2)) ++
              (uvarint (zigzag (cur 3 - prevE 3)) ++
                ((deltaVals cur rest).map uvarint).flatten)))).length = 0 := by
        omega
      exact hne (List.length_eq_zero.mp h0)
    | succ f =>
      rw [decodeGo_succ, if_neg hne,
        readRecord_encode prevE prevD cur _ hpd]
      show decodeGo f (projectTo4 cur)
          ((deltaVals cur rest).map uvarint).flatten
          (projectTo4 cur :: acc) = _
      rw [ih cur (projectTo4 cur)
        (fun i hi => by unfold projectTo4; rw [if_pos hi])
        (projectTo4 cur :: acc) f
        (by
          have hlen1 : 0 < (uvarint (zigzag (cur 0 - prevE 0))).length :=
            List.length_pos.mpr (uvarint_ne_nil _)
          simp only [List.length_append] at hfuel
          omega)]
      simp

/-- C2: for every sequence of monotonically non-decreasing row numbers,
decoding the encoding gives back the sequence on slots 0..=3 with slots
4..=7 of every decoded record set to `-1`; the empty sequence encodes to an
empty encoding and decodes back to the empty sequence. -/
theorem c2_row_numbers_encode_decode (xs : List RowNumber)
    (_hmono : List.Chain' (fun a b => CompareRowNumbers 7 a b ≤ 0) xs) :
    RowNumbersDecode (RowNumbersEncode xs) = some (xs.map projectTo4) ∧
    RowNumbersEncode [] = [] ∧ RowNumbersDecode [] = some [] := by
  refine ⟨?_, rfl, rfl⟩
  unfold RowNumbersDecode RowNumbersEncode
  rw [restoreZeros_truncateZeros _ (varintStream_shape (deltaVals zeroRow xs))]
  have h := decodeGo_encode xs zeroRow zeroRow (fun _ _ => rfl) []
    ((deltaVals zeroRow xs).map uvarint).flatten.length (le_refl _)
  simpa using h

/-- `[1, 2, 3, 4, 5, 6, 7, 8]` as a row number. -/
def c2Row1 : RowNumber := fun i => (i.val : Int) + 1

/-- `[10, 20, 30, 40, 50, 60, 70, 80]` as a row number. -/
def c2Row2 : RowNumber := fun i => 10 * ((i.val : Int) + 1)

/-- Witness for C2 at the two-record sequence of the tests. -/
theorem c2_row_numbers_encode_decode_witness :
    List.Chain' (fun a b => CompareRowNumbers 7 a b ≤ 0) [c2Row1, c2Row2] ∧
    (RowNumbersDecode (RowNumbersEncode [c2Row1, c2Row2]) =
      some ([c2Row1, c2Row2].map projectTo4) ∧
     RowNumbersEncode [] = [] ∧ RowNumbersDecode [] = some []) :=
  ⟨by rw [List.chain'_pair]; decide,
    c2_row_numbers_encode_decode [c2Row1, c2Row2]
      (by rw [List.chain'_pair]; decide)⟩

end Tempo
